import Mathlib

/-!
Verification development for the `liveinit` repository.

We shallowly embed the two core modules:

* `src/observer.js` — the selector-match lifecycle tracker built on
  `MutationObserver` (`notifyNode`, `processNode`, the batch callback,
  `evaluate`, `forget`, the synchronous initial scan);
* `src/initComponents.js` — the component activation manager layered on the
  observer (per-element activation records, async module resolution,
  teardown, `retryFailed`, `collectCandidates`, the default resolver);
* `src/parseConfig.js` — the lenient configuration parser.

Elements are identified by natural numbers (DOM nodes are compared by
reference identity in the source).  Platform services (CSS matching,
`querySelectorAll` document-order results, `JSON.parse`, the regex rewrite)
are parameters of the embedding, since the source delegates to the browser
for them.  JavaScript `WeakMap`s and `Set`s are modelled as association
lists / membership lists; JS `Set` iteration order is insertion order, which
the list encoding preserves.
-/

/-- A connect/disconnect callback invocation `(element, connected, selector)`,
as produced by `observer.js`'s `callback(element, isConnected, selector)`. -/
structure Callback where
  element : Nat
  connected : Bool
  selector : String
deriving DecidableEq, Repr

/-- The platform DOM services the observer relies on:
`isElem` models the `nodeType === 1` / has-`.matches` checks,
`elMatches` models `element.matches(selector)`, and
`qsa` models `node.querySelectorAll(selectorString)` — the list of matching
descendants of a node in document order (never including the node itself,
a fact we take as a hypothesis where a claim needs it). -/
structure Dom where
  isElem : Nat → Bool
  elMatches : Nat → String → Bool
  qsa : Nat → List Nat

/-- The observer's `liveElements` WeakMap: element ↦ set of active selectors
(the JS `Set` is insertion-ordered, encoded as a duplicate-free list). -/
abbrev EMap := List (Nat × List String)

def EMap.find : EMap → Nat → Option (List String)
  | [], _ => none
  | (k, v) :: rest, el => if k = el then some v else EMap.find rest el

def EMap.set : EMap → Nat → List String → EMap
  | [], el, v => [(el, v)]
  | (k, w) :: rest, el, v =>
    if k = el then (k, v) :: rest else (k, w) :: EMap.set rest el v

def EMap.erase : EMap → Nat → EMap
  | [], _ => []
  | (k, w) :: rest, el => if k = el then rest else (k, w) :: EMap.erase rest el

/-- One step of the `for` loop in `notifyNode`'s connected branch: if the
element matches `q` and `q` is not yet active, activate it and emit a
connect callback. -/
def connStep (dom : Dom) (el : Nat) (acc : List String × List Callback)
    (q : String) : List String × List Callback :=
  if dom.elMatches el q then
    if acc.1.contains q then acc
    else (acc.1 ++ [q], acc.2 ++ [⟨el, true, q⟩])
  else acc

/-- The whole `for` loop over `queries` in `notifyNode`'s connected branch. -/
def connFold (dom : Dom) (el : Nat) (queries : List String)
    (acc : List String × List Callback) : List String × List Callback :=
  queries.foldl (connStep dom el) acc

/-- `notifyNode(element, isConnected)` from `observer.js`: recompute which
registered selectors match, activate/deactivate per the live-element ledger,
and return the updated ledger together with the emitted callbacks. -/
def notifyNode (dom : Dom) (queries : List String) (m : EMap) (el : Nat)
    (isConnected : Bool) : EMap × List Callback :=
  if dom.isElem el then
    if isConnected then
      match m.find el with
      | some act =>
        let r := connFold dom el queries (act, [])
        (m.set el r.1, r.2)
      | none =>
        let r := connFold dom el queries ([], [])
        if r.1.isEmpty then (m, r.2) else (m.set el r.1, r.2)
    else
      match m.find el with
      | some act => (m.erase el, act.map fun q => ⟨el, false, q⟩)
      | none => (m, [])
  else (m, [])

/-- One iteration of the `evaluate` loop from `observer.js`: skip nodes with
`nodeType !== 1`, otherwise run `notifyNode` and collect its callbacks. -/
def evalStep (dom : Dom) (queries : List String) (isConnected : Bool)
    (acc : EMap × List Callback) (n : Nat) : EMap × List Callback :=
  if dom.isElem n then
    let r := notifyNode dom queries acc.1 n isConnected
    (r.1, acc.2 ++ r.2)
  else acc

/-- `evaluate(elements, isConnected)` from `observer.js`: run `notifyNode`
on every passed node that is an element, in order. -/
def evaluate (dom : Dom) (queries : List String) (m : EMap)
    (nodes : List Nat) (isConnected : Bool) : EMap × List Callback :=
  nodes.foldl (evalStep dom queries isConnected) (m, [])

/-- The synchronous initial scan performed at observer creation:
`evaluate(root.querySelectorAll(selectorString), true)` on a fresh ledger. -/
def observerInit (dom : Dom) (queries : List String) (root : Nat) :
    EMap × List Callback :=
  evaluate dom queries [] (dom.qsa root) true

/-- `forget(el)` from `observer.js`: drop the ledger entry, emitting nothing. -/
def forget (m : EMap) (el : Nat) : EMap := m.erase el

/-- The per-batch working sets `added` / `removed` (JS `Set`s of nodes). -/
abbrev NSet := List Nat

def NSet.mem (s : NSet) (n : Nat) : Bool := s.contains n

def NSet.insert (s : NSet) (n : Nat) : NSet := if s.contains n then s else n :: s

def NSet.del (s : NSet) (n : Nat) : NSet := s.filter (fun x => x ≠ n)

/-- A mutation batch, flattened to the exact order in which `processNode`
visits nodes.  For each mutation record the callback first processes each
removed element and then each added element; `processNode` visits the node
itself and then its matching descendants (`node.querySelectorAll`), in
document order.  Each visit is an occurrence `(node, direction)` with
`direction = true` for added. -/
def nodeOccs (dom : Dom) (n : Nat) (d : Bool) : List (Nat × Bool) :=
  (n, d) :: (dom.qsa n).map (fun desc => (desc, d))

/-- Flatten a list of mutation records (`(addedNodes, removedNodes)` pairs)
into the occurrence list the `MutationObserver` callback processes, filtering
non-element nodes (`nodeType === 1`) exactly as the source does. -/
def batchOccs (dom : Dom) (records : List (List Nat × List Nat)) :
    List (Nat × Bool) :=
  records.flatMap fun r =>
    ((r.2.filter dom.isElem).flatMap fun n => nodeOccs dom n false) ++
    ((r.1.filter dom.isElem).flatMap fun n => nodeOccs dom n true)

/-- The dedup-and-notify core of `processNode`, run over an occurrence list:
an added occurrence fires unless the node is already in the `added` set
(then the node joins `added` and leaves `removed`), symmetrically for
removed occurrences.  Returns the final ledger, the emitted callbacks, and
the list of occurrences that actually fired (the `notifyNode` invocations). -/
def runOccs (dom : Dom) (queries : List String) (m : EMap)
    (added removed : NSet) :
    List (Nat × Bool) → EMap × List Callback × List (Nat × Bool)
  | [] => (m, [], [])
  | (n, d) :: rest =>
    if d then
      if added.mem n then runOccs dom queries m added removed rest
      else
        let r := notifyNode dom queries m n true
        let rec' := runOccs dom queries r.1 (added.insert n) (removed.del n) rest
        (rec'.1, r.2 ++ rec'.2.1, (n, true) :: rec'.2.2)
    else
      if removed.mem n then runOccs dom queries m added removed rest
      else
        let r := notifyNode dom queries m n false
        let rec' := runOccs dom queries r.1 (added.del n) (removed.insert n) rest
        (rec'.1, r.2 ++ rec'.2.1, (n, false) :: rec'.2.2)

/-- One `MutationObserver` callback invocation from `observer.js`: fresh
`added`/`removed` sets, then all records processed in order. -/
def batchProcess (dom : Dom) (queries : List String) (m : EMap)
    (records : List (List Nat × List Nat)) :
    EMap × List Callback × List (Nat × Bool) :=
  runOccs dom queries m [] [] (batchOccs dom records)

/-- The projection of the batch dedup logic onto one fixed node: the state is
the pair (node ∈ added, node ∈ removed) and the output collects the
directions of the occurrences that fire for that node. -/
def outRun : Bool × Bool → List Bool → List Bool
  | _, [] => []
  | s, d :: ds =>
    if d then
      if s.1 then outRun s ds else true :: outRun (true, false) ds
    else
      if s.2 then outRun s ds else false :: outRun (false, true) ds

/-! ## Activation manager (`src/initComponents.js`) -/

/-- Behavior classes and constructed instances are abstract (identified by
number); `construct` below models `new ModuleClass(el, config)`, which may
itself throw (caught by `initModule`'s `try`). -/
abbrev Cls := Nat

abbrev Inst := Nat

deriving instance DecidableEq for Except

/-- Console output emitted by the manager / default resolver. -/
inductive LogEv where
  | warn
  | error
deriving DecidableEq, Repr

/-- The per-element activation record built in the connect branch of
`initComponents`: `aborted` is `abortController.signal.aborted`,
`cancelLazy` records whether a lazy-deferral cancel handle was stored,
`appModule` is the constructed instance, `failed` the failure flag.
Config parsing / signal injection only populate the constructor argument and
are not tracked here, as no claim depends on the config contents. -/
structure Rec where
  aborted : Bool
  cancelLazy : Bool
  appModule : Option Inst
  failed : Bool
deriving DecidableEq, Repr

/-- The record as created at connect time (`state = { abortController: new
AbortController(), cancelLazy: null|handle, appModule: null, failed: false }`);
`lazyFlag` is `el.hasAttribute(lazyAttribute)`, which decides whether
`state.cancelLazy = lazy(el, initModule)` stores a handle. -/
def freshRec (lazyFlag : Bool) : Rec :=
  { aborted := false, cancelLazy := lazyFlag, appModule := none, failed := false }

/-- The completion of `initModule`'s `try` block, entered when the awaited
resolver settles: `res` is the settled resolver outcome (`.error` if the
`await` threw), `construct` models `new ModuleClass(el, config)` (which may
throw, landing in the same `catch`).  Returns the updated record, whether
the constructor was invoked, and the console output. -/
def resolveStep (construct : Cls → Except Unit Inst)
    (res : Except Unit (Option Cls)) (r : Rec) : Rec × Bool × List LogEv :=
  match res with
  | .error _ => ({ r with failed := true }, false, [.error])
  | .ok mc =>
    match mc with
    | some c =>
      if r.aborted then (r, false, [])
      else
        match construct c with
        | .ok inst => ({ r with appModule := some inst, failed := false }, true, [])
        | .error _ => ({ r with failed := true }, true, [.error])
    | none => ({ r with failed := true }, false, [])

/-- Teardown side effects, in emission order. -/
inductive TdEv where
  | abort
  | cancelLazy
  | destroy (i : Inst)
deriving DecidableEq, Repr

/-- The disconnect branch of the `initComponents` observer callback, acting
on the current map entry for the element (`none` = `componentState.get(el)`
returned nothing).  `hasDestroy i` is `typeof appModule[destroyMethod] ===
"function"`; `destroyThrows i` models the destroy call throwing, in which
case the exception escapes the callback before `componentState.delete(el)`
runs.  Returns the map entry afterwards, the side-effect trace, and whether
an exception escaped. -/
def teardown (hasDestroy : Inst → Bool) (destroyThrows : Inst → Bool) :
    Option Rec → Option Rec × List TdEv × Bool
  | none => (none, [], false)
  | some r =>
    let r1 := { r with aborted := true }
    let evs := [TdEv.abort] ++ (if r.cancelLazy then [TdEv.cancelLazy] else [])
    match r.appModule with
    | some i =>
      if hasDestroy i then
        if destroyThrows i then (some r1, evs ++ [TdEv.destroy i], true)
        else (none, evs ++ [TdEv.destroy i], false)
      else (none, evs, false)
    | none => (none, evs, false)

/-- The default resolver of `initComponents`.  `registry name` is
`Registry && Registry[moduleName]` (with the awaited dynamic import either
yielding a class — `imported.default || imported` — or throwing);
`window name` is the truthiness lookup `window[moduleName]`; `isNative`
is the native-function test.  Returns the settled resolver outcome and the
console output. -/
def defaultResolver (registry : String → Option (Except Unit Cls))
    (strict : Bool) (window : String → Option Cls) (isNative : Cls → Bool)
    (name : String) : Except Unit (Option Cls) × List LogEv :=
  match registry name with
  | some imported =>
    match imported with
    | .ok c => (.ok (some c), [])
    | .error e => (.error e, [])
  | none =>
    if !strict then
      match window name with
      | some candidate =>
        if !isNative candidate then (.ok (some candidate), [])
        else (.ok none, [.warn])
      | none => (.ok none, [.warn])
    else (.ok none, [.warn])

/-- The heap of activation records: JavaScript record objects have identity
(the `initModule` closure and the `componentState` map reference the same
mutable object), so records live in a heap indexed by an allocation id and
`componentState` maps elements to ids. -/
abbrev RHeap := List (Nat × Rec)

def RHeap.find : RHeap → Nat → Option Rec
  | [], _ => none
  | (k, v) :: rest, i => if k = i then some v else RHeap.find rest i

def RHeap.set : RHeap → Nat → Rec → RHeap
  | [], i, v => [(i, v)]
  | (k, w) :: rest, i, v =>
    if k = i then (k, v) :: rest else (k, w) :: RHeap.set rest i v

/-- The `componentState` WeakMap: element ↦ activation-record id. -/
abbrev CMap := List (Nat × Nat)

def CMap.find : CMap → Nat → Option Nat
  | [], _ => none
  | (k, v) :: rest, el => if k = el then some v else CMap.find rest el

def CMap.set : CMap → Nat → Nat → CMap
  | [], el, v => [(el, v)]
  | (k, w) :: rest, el, v =>
    if k = el then (k, v) :: rest else (k, w) :: CMap.set rest el v

def CMap.erase : CMap → Nat → CMap
  | [], _ => []
  | (k, w) :: rest, el => if k = el then rest else (k, w) :: CMap.erase rest el

/-- Combined state of one `initComponents` instance: the underlying
observer's ledger, the `componentState` map, the record heap, and the next
free record id. -/
structure Sys where
  ledger : EMap
  comp : CMap
  heap : RHeap
  nextId : Nat
deriving DecidableEq, Repr

/-- The behaviour of the environment the manager is instantiated against:
the DOM services, per-element `hasAttribute(lazyAttribute)`, the destroy
method's presence and behaviour on instances, and the constructor. -/
structure Env where
  dom : Dom
  lazyFlag : Nat → Bool
  hasDestroy : Inst → Bool
  destroyThrows : Inst → Bool
  construct : Cls → Except Unit Inst

/-- The connect branch of the `initComponents` observer callback: build a
fresh activation record (fresh `AbortController`, `cancelLazy` handle iff the
lazy attribute is present) and store it in `componentState`, overwriting any
previous entry.  The asynchronous `initModule` body runs later and is
modelled by `resolveSys` acting on the allocated record id. -/
def connectSys (env : Env) (el : Nat) (s : Sys) : Sys :=
  { s with
    comp := s.comp.set el s.nextId
    heap := s.heap.set s.nextId (freshRec (env.lazyFlag el))
    nextId := s.nextId + 1 }

/-- The disconnect branch of the `initComponents` observer callback
(teardown).  The record object is aborted in place (visible to the pending
`initModule` closure through the heap); the `componentState` entry is
removed unless the destroy call threw first. -/
def disconnectSys (env : Env) (el : Nat) (s : Sys) : Sys × List TdEv × Bool :=
  match s.comp.find el with
  | none => (s, [], false)
  | some id =>
    match s.heap.find id with
    | none => (s, [], false)
    | some r =>
      let t := teardown env.hasDestroy env.destroyThrows (some r)
      let s1 := { s with heap := s.heap.set id { r with aborted := true } }
      if t.2.2 then (s1, t.2.1, true)
      else ({ s1 with comp := s1.comp.erase el }, t.2.1, false)

/-- Completion of a pending `initModule` for record id `id` with settled
resolver outcome `res`: the closure mutates its captured record object,
whether or not `componentState` still references it. -/
def resolveSys (env : Env) (id : Nat) (res : Except Unit (Option Cls))
    (s : Sys) : Sys × Bool :=
  match s.heap.find id with
  | none => (s, false)
  | some r =>
    let t := resolveStep env.construct res r
    ({ s with heap := s.heap.set id t.1 }, t.2.1)

/-- Dispatch the callbacks emitted by the observer to the manager callback,
in emission order (the manager ignores the selector argument). -/
def applySys (env : Env) : List Callback → Sys → Sys
  | [], s => s
  | cb :: rest, s =>
    if cb.connected then applySys env rest (connectSys env cb.element s)
    else applySys env rest (disconnectSys env cb.element s).1

/-- `engine.evaluate(nodes, isConnected)` of the composed system: the
observer updates its ledger and invokes the manager callback for each
emitted notification. -/
def evaluateSys (env : Env) (queries : List String) (nodes : List Nat)
    (isConnected : Bool) (s : Sys) : Sys :=
  let r := evaluate env.dom queries s.ledger nodes isConnected
  applySys env r.2 { s with ledger := r.1 }

/-- `engine.forget(el)` of the composed system. -/
def forgetSys (el : Nat) (s : Sys) : Sys :=
  { s with ledger := forget s.ledger el }

/-- `collectCandidates(root)` from `initComponents.js`: the matching
descendants of `root`, then `root` itself if it matches the component
attribute selector. -/
def collectCandidates (dom : Dom) (attrSel : String) (root : Nat) : List Nat :=
  dom.qsa root ++ (if dom.elMatches root attrSel then [root] else [])

/-- `retryFailed`'s per-candidate body: skip unless a state record exists
with `failed = true`; otherwise count it, `engine.forget(el)` and
`engine.evaluate(el, true)`. -/
def retryOne (env : Env) (queries : List String) (acc : Sys × Nat)
    (el : Nat) : Sys × Nat :=
  match acc.1.comp.find el with
  | none => acc
  | some id =>
    match acc.1.heap.find id with
    | none => acc
    | some r =>
      if r.failed then
        (evaluateSys env queries [el] true (forgetSys el acc.1), acc.2 + 1)
      else acc

/-- `retryFailed(root)` from `initComponents.js`, over the candidate list
collected from `root`; returns the new state and the retried count. -/
def retryFailedSys (env : Env) (queries : List String) (attrSel : String)
    (root : Nat) (s : Sys) : Sys × Nat :=
  (collectCandidates env.dom attrSel root).foldl (retryOne env queries) (s, 0)

/-! ## Configuration parser (`src/parseConfig.js`) -/

/-- JSON values as returned by `JSON.parse`; only objecthood matters to the
claims, so non-object values are kept schematic. -/
inductive Json where
  | obj : List (String × String) → Json
  | other : Nat → Json
deriving DecidableEq, Repr

def Json.isObj : Json → Bool
  | .obj _ => true
  | .other _ => false

/-- Configuration strings are modelled as character lists (so that prefix
facts are structural). -/
abbrev CStr := List Char

/-- `String.prototype.trim`: strip leading and trailing whitespace. -/
def strTrim (s : CStr) : CStr :=
  ((s.dropWhile Char.isWhitespace).reverse.dropWhile Char.isWhitespace).reverse

/-- The brace-wrapping step of `parseConfig`: `if (!jsonString.startsWith("{"))
jsonString = "{" + jsonString + "}"`. -/
def wrapBraces (s : CStr) : CStr :=
  if s.head? = some '{' then s else '{' :: (s ++ ['}'])

/-- `parseConfig(str)` from `src/parseConfig.js`.  `rewrite` is the regex
replacement quoting unquoted keys and converting single-quoted strings (a
pure string-to-string transformation); `jsonParse` is the platform
`JSON.parse`, `none` meaning it threw.  A non-string input is `none`.  The
`try`/`catch` around `JSON.parse` maps a parse failure to `{}`. -/
def parseConfig (rewrite : CStr → CStr) (jsonParse : CStr → Option Json) :
    Option CStr → Json
  | none => Json.obj []
  | some s =>
    let t := strTrim s
    if t = [] then Json.obj []
    else
      let js := wrapBraces (rewrite t)
      match jsonParse js with
      | some v => v
      | none => Json.obj []

/-! ## Map and fold lemmas -/

theorem EMap.find_set_self (m : EMap) (el : Nat) (v : List String) :
    (m.set el v).find el = some v := by
  induction m with
  | nil => simp [EMap.set, EMap.find]
  | cons p rest ih =>
    by_cases hk : p.1 = el
    · simp [EMap.set, EMap.find, hk]
    · simp [EMap.set, EMap.find, hk, ih]

theorem EMap.find_set_ne (m : EMap) (el el' : Nat) (v : List String)
    (h : el' ≠ el) : (m.set el v).find el' = m.find el' := by
  induction m with
  | nil => simp [EMap.set, EMap.find, Ne.symm h]
  | cons p rest ih =>
    by_cases hk : p.1 = el
    · simp [EMap.set, EMap.find, hk, h, Ne.symm h]
    · simp [EMap.set, EMap.find, hk, ih]

theorem EMap.find_not_mem (m : EMap) (el : Nat)
    (h : el ∉ m.map Prod.fst) : m.find el = none := by
  induction m with
  | nil => simp [EMap.find]
  | cons p rest ih =>
    simp only [List.map_cons, List.mem_cons, not_or] at h
    simp [EMap.find, Ne.symm h.1, ih h.2]

theorem EMap.find_erase_self (m : EMap) (el : Nat)
    (h : (m.map Prod.fst).Nodup) : (m.erase el).find el = none := by
  induction m with
  | nil => simp [EMap.erase, EMap.find]
  | cons p rest ih =>
    simp only [List.map_cons, List.nodup_cons] at h
    by_cases hk : p.1 = el
    · subst hk
      simpa [EMap.erase] using EMap.find_not_mem rest p.1 h.1
    · simp [EMap.erase, hk, EMap.find, ih h.2]

theorem EMap.find_erase_ne (m : EMap) (el el' : Nat) (h : el' ≠ el) :
    (m.erase el).find el' = m.find el' := by
  induction m with
  | nil => simp [EMap.erase, EMap.find]
  | cons p rest ih =>
    by_cases hk : p.1 = el
    · simp [EMap.erase, EMap.find, hk, Ne.symm h]
    · simp [EMap.erase, EMap.find, hk, ih]

theorem rheap_find_set_self (h : RHeap) (i : Nat) (v : Rec) :
    (h.set i v).find i = some v := by
  induction h with
  | nil => simp [RHeap.set, RHeap.find]
  | cons p rest ih =>
    by_cases hk : p.1 = i
    · simp [RHeap.set, RHeap.find, hk]
    · simp [RHeap.set, RHeap.find, hk, ih]

theorem rheap_find_set_ne (h : RHeap) (i i' : Nat) (v : Rec) (hne : i' ≠ i) :
    (h.set i v).find i' = h.find i' := by
  induction h with
  | nil => simp [RHeap.set, RHeap.find, Ne.symm hne]
  | cons p rest ih =>
    by_cases hk : p.1 = i
    · simp [RHeap.set, RHeap.find, hk, Ne.symm hne]
    · simp [RHeap.set, RHeap.find, hk, ih]

theorem cmap_find_set_self (m : CMap) (el : Nat) (v : Nat) :
    (m.set el v).find el = some v := by
  induction m with
  | nil => simp [CMap.set, CMap.find]
  | cons p rest ih =>
    by_cases hk : p.1 = el
    · simp [CMap.set, CMap.find, hk]
    · simp [CMap.set, CMap.find, hk, ih]

theorem connFold_cons (dom : Dom) (el : Nat) (q0 : String)
    (rest : List String) (acc : List String × List Callback) :
    connFold dom el (q0 :: rest) acc = connFold dom el rest (connStep dom el acc q0) := rfl

theorem connFold_mono (dom : Dom) (el : Nat) (q : String) :
    ∀ (queries : List String) (acc : List String × List Callback),
    acc.1.contains q = true → (connFold dom el queries acc).1.contains q = true := by
  intro queries
  induction queries with
  | nil => intro acc h; exact h
  | cons q0 rest ih =>
    intro acc h
    rw [connFold_cons]
    apply ih
    unfold connStep
    split
    · split
      · exact h
      · simp only [List.contains_iff_exists_mem_beq] at h ⊢
        obtain ⟨x, hx, hb⟩ := h
        exact ⟨x, List.mem_append_left _ hx, hb⟩
    · exact h

theorem connFold_post (dom : Dom) (el : Nat) (q : String)
    (hm : dom.elMatches el q = true) :
    ∀ (queries : List String) (acc : List String × List Callback),
    q ∈ queries → (connFold dom el queries acc).1.contains q = true := by
  intro queries
  induction queries with
  | nil => intro acc hq; cases hq
  | cons q0 rest ih =>
    intro acc hq
    rw [connFold_cons]
    rcases List.mem_cons.mp hq with h0 | h0
    · subst h0
      apply connFold_mono
      unfold connStep
      rw [if_pos hm]
      split
      · assumption
      · simp
    · exact ih _ h0

theorem connFold_saturated (dom : Dom) (el : Nat) :
    ∀ (queries : List String) (acc : List String × List Callback),
    (∀ q ∈ queries, dom.elMatches el q = true → acc.1.contains q = true) →
    connFold dom el queries acc = acc := by
  intro queries
  induction queries with
  | nil => intro acc _; rfl
  | cons q0 rest ih =>
    intro acc h
    rw [connFold_cons]
    have hstep : connStep dom el acc q0 = acc := by
      unfold connStep
      by_cases hm0 : dom.elMatches el q0 = true
      · rw [if_pos hm0, if_pos (h q0 (List.mem_cons_self q0 rest) hm0)]
      · rw [if_neg hm0]
    rw [hstep]
    exact ih acc (fun q hq hm => h q (List.mem_cons_of_mem q0 hq) hm)

theorem connFold_events (dom : Dom) (el : Nat) :
    ∀ (queries : List String) (acc : List String × List Callback),
    (∀ ev ∈ acc.2, ev.element = el) →
    ∀ ev ∈ (connFold dom el queries acc).2, ev.element = el := by
  intro queries
  induction queries with
  | nil => intro acc h; exact h
  | cons q0 rest ih =>
    intro acc h
    rw [connFold_cons]
    apply ih
    intro ev hev
    unfold connStep at hev
    split at hev
    · split at hev
      · exact h ev hev
      · rcases List.mem_append.mp hev with h1 | h1
        · exact h ev h1
        · rw [List.mem_singleton.mp h1]
    · exact h ev hev

theorem notifyNode_events (dom : Dom) (queries : List String) (m : EMap)
    (el : Nat) (c : Bool) :
    ∀ ev ∈ (notifyNode dom queries m el c).2, ev.element = el := by
  intro ev hev
  by_cases he : dom.isElem el = true
  · cases c with
    | true =>
      cases hf : m.find el with
      | some act =>
        simp only [notifyNode, he, if_true, hf] at hev
        exact connFold_events dom el queries (act, []) (by intro x hx; cases hx) ev hev
      | none =>
        simp only [notifyNode, he, if_true, hf] at hev
        split at hev
        · exact connFold_events dom el queries ([], []) (by intro x hx; cases hx) ev hev
        · exact connFold_events dom el queries ([], []) (by intro x hx; cases hx) ev hev
    | false =>
      cases hf : m.find el with
      | some act =>
        simp only [notifyNode, he, if_true, Bool.false_eq_true, if_false, hf] at hev
        rcases List.mem_map.mp hev with ⟨x, _, hx2⟩
        rw [← hx2]
      | none => simp [notifyNode, he, hf] at hev
  · simp [notifyNode, he] at hev

theorem evalFold_events (dom : Dom) (queries : List String) (c : Bool) :
    ∀ (nodes : List Nat) (acc : EMap × List Callback),
    ∀ ev ∈ (nodes.foldl (evalStep dom queries c) acc).2,
      ev ∈ acc.2 ∨ ev.element ∈ nodes := by
  intro nodes
  induction nodes with
  | nil => intro acc ev h; exact Or.inl h
  | cons n rest ih =>
    intro acc ev h
    rw [List.foldl_cons] at h
    rcases ih _ ev h with h1 | h1
    · unfold evalStep at h1
      split at h1
      · rcases List.mem_append.mp h1 with h2 | h2
        · exact Or.inl h2
        · exact Or.inr (by
            rw [notifyNode_events dom queries acc.1 n c ev h2]
            exact List.mem_cons_self n rest)
      · exact Or.inl h1
    · exact Or.inr (List.mem_cons_of_mem n h1)

theorem connFold_count (dom : Dom) (el : Nat) (q : String) :
    ∀ (queries : List String) (acc : List String × List Callback),
    (connFold dom el queries acc).2.count ⟨el, true, q⟩ =
      acc.2.count ⟨el, true, q⟩ +
      (if q ∈ queries ∧ dom.elMatches el q = true ∧ q ∉ acc.1
       then 1 else 0) := by
  intro queries
  induction queries with
  | nil => intro acc; simp [connFold]
  | cons q0 rest ih =>
    intro acc
    rw [connFold_cons, ih]
    unfold connStep
    by_cases hm0 : dom.elMatches el q0 = true
    · rw [if_pos hm0]
      by_cases hc0 : acc.1.contains q0 = true
      · rw [if_pos hc0]
        simp only [List.elem_eq_mem, decide_eq_true_eq] at hc0
        by_cases hq : q = q0
        · subst hq
          simp [hc0, hm0]
        · simp [hq, List.mem_cons]
      · rw [if_neg hc0]
        simp only [List.elem_eq_mem, decide_eq_true_eq] at hc0
        by_cases hq : q = q0
        · subst hq
          have hne : ¬(q ∈ rest ∧ dom.elMatches el q = true ∧ q ∉ acc.1 ++ [q]) := by
            intro ⟨_, _, habs⟩
            exact habs (List.mem_append_right _ (List.mem_singleton_self q))
          simp only [if_neg hne, List.count_append, List.mem_cons, true_or, hm0, hc0,
            not_false_eq_true, and_self, if_pos]
          simp
        · have hsel : (⟨el, true, q0⟩ : Callback) ≠ ⟨el, true, q⟩ := by
            simp [Ne.symm hq]
          have hmem : (q ∈ acc.1 ++ [q0]) ↔ q ∈ acc.1 := by
            simp [List.mem_append, hq]
          simp only [List.count_append, hmem, List.mem_cons, hq, false_or]
          have hz : List.count ⟨el, true, q⟩ [(⟨el, true, q0⟩ : Callback)] = 0 := by
            simp [List.count_singleton', Ne.symm hq]
          rw [hz, Nat.add_zero]
    · rw [if_neg hm0]
      by_cases hq : q = q0
      · subst hq
        simp [hm0]
      · simp [List.mem_cons, hq]

/-- `n` successive manual `evaluate(el, true)` calls, collecting all
emitted callbacks in order. -/
def evalRepeat (dom : Dom) (queries : List String) (el : Nat) :
    Nat → EMap → EMap × List Callback
  | 0, m => (m, [])
  | n + 1, m =>
    let r := evaluate dom queries m [el] true
    let r2 := evalRepeat dom queries el n r.1
    (r2.1, r.2 ++ r2.2)

theorem evaluate_single (dom : Dom) (queries : List String) (m : EMap)
    (el : Nat) (c : Bool) :
    evaluate dom queries m [el] c =
      if dom.isElem el = true then notifyNode dom queries m el c else (m, []) := by
  by_cases he : dom.isElem el = true
  · simp [evaluate, evalStep, he]
  · simp [evaluate, evalStep, he]

/-- The element's ledger state is saturated: either an entry exists that
already contains every matching registered selector, or there is no entry
and no registered selector matches. -/
def SatAt (dom : Dom) (queries : List String) (el : Nat) (m : EMap) : Prop :=
  (∃ act, m.find el = some act ∧
    ∀ q ∈ queries, dom.elMatches el q = true → act.contains q = true) ∨
  (m.find el = none ∧ ∀ q ∈ queries, dom.elMatches el q = false)

theorem evaluate_sat (dom : Dom) (queries : List String) (el : Nat) (m : EMap)
    (hsat : SatAt dom queries el m) :
    (evaluate dom queries m [el] true).2 = [] ∧
    SatAt dom queries el (evaluate dom queries m [el] true).1 := by
  rw [evaluate_single]
  by_cases he : dom.isElem el = true
  · rw [if_pos he]
    rcases hsat with ⟨act, hfind, hs⟩ | ⟨hfind, hnone⟩
    · have hfold : connFold dom el queries (act, []) = (act, []) :=
        connFold_saturated dom el queries (act, []) hs
      simp only [notifyNode, he, if_true, hfind, hfold]
      exact ⟨trivial, Or.inl ⟨act, EMap.find_set_self m el act, hs⟩⟩
    · have hfold : connFold dom el queries ([], []) = ([], []) := by
        apply connFold_saturated
        intro q hq hm
        rw [hnone q hq] at hm
        cases hm
      simp only [notifyNode, he, if_true, hfind, hfold, List.isEmpty_nil, if_pos]
      exact ⟨trivial, Or.inr ⟨hfind, hnone⟩⟩
  · rw [if_neg he]
    exact ⟨rfl, hsat⟩

theorem evalRepeat_sat (dom : Dom) (queries : List String) (el : Nat) :
    ∀ (n : Nat) (m : EMap), SatAt dom queries el m →
    (evalRepeat dom queries el n m).2 = [] := by
  intro n
  induction n with
  | zero => intro m _; rfl
  | succ k ih =>
    intro m hsat
    obtain ⟨h1, h2⟩ := evaluate_sat dom queries el m hsat
    show ((evaluate dom queries m [el] true).2 ++
      (evalRepeat dom queries el k (evaluate dom queries m [el] true).1).2) = []
    rw [h1, ih _ h2, List.append_nil]

theorem evaluate_first_sat (dom : Dom) (queries : List String) (m : EMap)
    (el : Nat) (hel : dom.isElem el = true) (hm : m.find el = none) :
    SatAt dom queries el (evaluate dom queries m [el] true).1 := by
  rw [evaluate_single, if_pos hel]
  simp only [notifyNode, hel, if_true, hm]
  by_cases hr : (connFold dom el queries ([], [])).1.isEmpty = true
  · rw [if_pos hr]
    refine Or.inr ⟨hm, fun q hq => ?_⟩
    by_cases hmm : dom.elMatches el q = true
    · exfalso
      have := connFold_post dom el q hmm queries ([], []) hq
      rw [List.isEmpty_iff] at hr
      rw [hr] at this
      cases this
    · rw [Bool.not_eq_true] at hmm
      exact hmm
  · rw [if_neg hr]
    exact Or.inl ⟨_, EMap.find_set_self m el _,
      fun q hq hmm => connFold_post dom el q hmm queries ([], []) hq⟩

theorem evaluate_first_count (dom : Dom) (queries : List String) (m : EMap)
    (el : Nat) (q : String) (hel : dom.isElem el = true)
    (hm : m.find el = none) :
    (evaluate dom queries m [el] true).2.count ⟨el, true, q⟩ =
      if q ∈ queries ∧ dom.elMatches el q = true then 1 else 0 := by
  rw [evaluate_single, if_pos hel]
  simp only [notifyNode, hel, if_true, hm]
  have hc := connFold_count dom el q queries ([], [])
  simp only [List.count_nil, List.not_mem_nil, not_false_eq_true, and_true,
    Nat.zero_add] at hc
  by_cases hr : (connFold dom el queries ([], [])).1.isEmpty = true
  · rw [if_pos hr]
    exact hc
  · rw [if_neg hr]
    exact hc

/-- C6: for every element and registered selector, repeated
`evaluate(el, true)` calls without an intervening disconnect or `forget`
produce exactly one connect callback per matching selector, and a
disconnect notification (`notifyNode` with `connected = false`) on an
element with no active selectors produces no callback. -/
theorem C6_evaluate_idempotent (dom : Dom) (queries : List String) (m : EMap)
    (el : Nat) (q : String) (n : Nat) (hel : dom.isElem el = true)
    (hm : m.find el = none) (hn : 1 ≤ n) :
    (evalRepeat dom queries el n m).2.count ⟨el, true, q⟩ =
      (if q ∈ queries ∧ dom.elMatches el q = true then 1 else 0) ∧
    (notifyNode dom queries m el false).2 = [] := by
  constructor
  · obtain ⟨k, rfl⟩ : ∃ k, n = k + 1 := ⟨n - 1, by omega⟩
    show ((evaluate dom queries m [el] true).2 ++
      (evalRepeat dom queries el k (evaluate dom queries m [el] true).1).2).count
        ⟨el, true, q⟩ = _
    rw [evalRepeat_sat dom queries el k _
      (evaluate_first_sat dom queries m el hel hm), List.append_nil]
    exact evaluate_first_count dom queries m el q hel hm
  · simp [notifyNode, hel, hm]

/-- A small concrete document for witnesses: every node is an element, node
`n` matches selector `"[data-x]"` iff `n` is even, and no node has
descendants. -/
def domW : Dom where
  isElem := fun _ => true
  elMatches := fun n s => (s == "[data-x]") && (n % 2 == 0)
  qsa := fun _ => []

theorem C6_evaluate_idempotent_witness :
    (domW.isElem 0 = true ∧ EMap.find [] 0 = none ∧ 1 ≤ 3) ∧
    ((evalRepeat domW ["[data-x]", "[data-y]"] 0 3 []).2.count ⟨0, true, "[data-x]"⟩ =
      (if "[data-x]" ∈ ["[data-x]", "[data-y]"] ∧
          domW.elMatches 0 "[data-x]" = true then 1 else 0) ∧
      (notifyNode domW ["[data-x]", "[data-y]"] [] 0 false).2 = []) :=
  ⟨⟨rfl, rfl, by decide⟩,
    C6_evaluate_idempotent domW ["[data-x]", "[data-y]"] [] 0 "[data-x]" 3
      rfl rfl (by decide)⟩

/-- C10: the synchronous initial scan emits connect callbacks only for
elements returned by `root.querySelectorAll` — strict descendants of `root`
(hypothesis `hroot`) — so a root that itself matches a registered selector
receives no initial connect callback, while `collectCandidates`, used by
`retryFailed`, does check the root separately and includes it. -/
theorem C10_initial_scan_excludes_root (dom : Dom) (queries : List String)
    (root : Nat) (attrSel : String) (hroot : root ∉ dom.qsa root)
    (hmatch : dom.elMatches root attrSel = true) :
    ((observerInit dom queries root).2.map Callback.element).contains root = false ∧
    root ∈ collectCandidates dom attrSel root := by
  constructor
  · simp only [List.elem_eq_mem, decide_eq_false_iff_not]
    intro hmem
    rcases List.mem_map.mp hmem with ⟨ev, hev, helem⟩
    rcases evalFold_events dom queries true (dom.qsa root) ([], []) ev hev with h1 | h1
    · cases h1
    · rw [helem] at h1
      exact hroot h1
  · simp [collectCandidates, hmatch]

theorem C10_initial_scan_excludes_root_witness :
    (0 ∉ domW.qsa 0 ∧ domW.elMatches 0 "[data-x]" = true) ∧
    (((observerInit domW ["[data-x]"] 0).2.map Callback.element).contains 0 = false ∧
      0 ∈ collectCandidates domW "[data-x]" 0) :=
  ⟨⟨by simp [domW], by decide⟩,
    C10_initial_scan_excludes_root domW ["[data-x]"] 0 "[data-x]"
      (by simp [domW]) (by decide)⟩

/-- A concrete document where node 0 has the matching descendant 1 (and no
other node has descendants): used to separate the manual `evaluate` path
from the mutation-batch path. -/
def domD : Dom where
  isElem := fun _ => true
  elMatches := fun _ s => s == "[data-x]"
  qsa := fun n => if n = 0 then [1] else []

/-- C7 counterexample: adding node 0 (whose subtree contains the matching
node 1) through a mutation batch notifies both 0 and its descendant 1, while
the manual `evaluate([0], true)` call notifies only node 0 itself — the two
paths do not have identical semantics. -/
theorem C7_counterexample :
    (batchProcess domD ["[data-x]"] [] [([0], [])]).2.1 ≠
      (evaluate domD ["[data-x]"] [] [0] true).2 := by decide

/-- C7 amended: the manual `evaluate` path coincides with the mutation-batch
path only for nodes whose subtree contains no further matching element
(`qsa n = []`); `evaluate` runs `notifyNode` on exactly the nodes passed and
never scans descendants, so callers must pass matching descendants
explicitly to mirror the automatic path. -/
theorem C7_evaluate_vs_batch (dom : Dom) (queries : List String) (m : EMap)
    (n : Nat) (h : dom.qsa n = []) :
    (batchProcess dom queries m [([n], [])]).2.1 =
      (evaluate dom queries m [n] true).2 ∧
    (batchProcess dom queries m [([], [n])]).2.1 =
      (evaluate dom queries m [n] false).2 := by
  constructor
  · by_cases he : dom.isElem n = true
    · simp [batchProcess, batchOccs, nodeOccs, runOccs, evaluate, evalStep,
        NSet.mem, h, he]
    · simp [batchProcess, batchOccs, nodeOccs, runOccs, evaluate, evalStep,
        NSet.mem, h, he]
  · by_cases he : dom.isElem n = true
    · simp [batchProcess, batchOccs, nodeOccs, runOccs, evaluate, evalStep,
        NSet.mem, h, he]
    · simp [batchProcess, batchOccs, nodeOccs, runOccs, evaluate, evalStep,
        NSet.mem, h, he]

theorem C7_evaluate_vs_batch_witness :
    (domD.qsa 1 = []) ∧
    ((batchProcess domD ["[data-x]"] [] [([1], [])]).2.1 =
        (evaluate domD ["[data-x]"] [] [1] true).2 ∧
      (batchProcess domD ["[data-x]"] [] [([], [1])]).2.1 =
        (evaluate domD ["[data-x]"] [] [1] false).2) :=
  ⟨rfl, C7_evaluate_vs_batch domD ["[data-x]"] [] 1 rfl⟩

theorem resolveStep_aborted (construct : Cls → Except Unit Inst)
    (res : Except Unit (Option Cls)) (r : Rec) (h : r.aborted = true) :
    (resolveStep construct res r).2.1 = false := by
  unfold resolveStep
  cases res with
  | error e => rfl
  | ok mc =>
    cases mc with
    | some c => simp [h]
    | none => rfl

/-- Concrete environment for witnesses: no lazy attributes, every instance
has a well-behaved destroy method, constructors return normally. -/
def envT : Env where
  dom := domW
  lazyFlag := fun _ => false
  hasDestroy := fun _ => true
  destroyThrows := fun _ => false
  construct := fun c => Except.ok c

/-- Concrete system state for witnesses: element 0 is bound to activation
record id 0, freshly created (pending resolution). -/
def sysT : Sys := ⟨[], [(0, 0)], [(0, freshRec false)], 1⟩

/-- C1: a disconnect arriving while the resolver promise is pending prevents
construction — after the teardown of an element's record, the eventual
resolution never constructs, whatever it returns; and in general
`new ModuleClass(element, config)` runs exactly when the resolved class is
non-null and the abort signal is untriggered at resolution-completion time. -/
theorem C1_no_construction_after_disconnect (env : Env) (s : Sys) (el id : Nat)
    (res res2 : Except Unit (Option Cls)) (construct : Cls → Except Unit Inst)
    (r : Rec) (h : s.comp.find el = some id) :
    (resolveSys env id res (disconnectSys env el s).1).2 = false ∧
    (resolveStep construct res2 r).2.1 =
      (match res2 with
       | .ok (some _) => !r.aborted
       | _ => false) := by
  constructor
  · cases hh : s.heap.find id with
    | none =>
      have hd : (disconnectSys env el s).1 = s := by
        unfold disconnectSys
        rw [h]
        dsimp only
        rw [hh]
      rw [hd]
      unfold resolveSys
      rw [hh]
    | some rr =>
      have hd : (disconnectSys env el s).1.heap =
          s.heap.set id { rr with aborted := true } := by
        unfold disconnectSys
        rw [h]
        dsimp only
        rw [hh]
        dsimp only
        split
        · rfl
        · rfl
      unfold resolveSys
      rw [hd, rheap_find_set_self]
      exact resolveStep_aborted env.construct res { rr with aborted := true } rfl
  · unfold resolveStep
    cases res2 with
    | error e => rfl
    | ok mc =>
      cases mc with
      | some c =>
        cases hab : r.aborted with
        | true => simp [hab]
        | false =>
          cases hc : construct c with
          | ok inst => simp [hab, hc]
          | error e3 => simp [hab, hc]
      | none => rfl

theorem C1_no_construction_after_disconnect_witness :
    (sysT.comp.find 0 = some 0) ∧
    ((resolveSys envT 0 (Except.ok (some 7)) (disconnectSys envT 0 sysT).1).2 = false ∧
      (resolveStep (fun c => Except.ok c) (Except.ok (some 7)) (freshRec false)).2.1 =
        (match (Except.ok (some 7) : Except Unit (Option Cls)) with
         | .ok (some _) => !(freshRec false).aborted
         | _ => false)) :=
  ⟨rfl, C1_no_construction_after_disconnect envT sysT 0 0 (Except.ok (some 7))
    (Except.ok (some 7)) (fun c => Except.ok c) (freshRec false) rfl⟩

/-- C4 counterexample: for a bound instance whose destroy method throws,
teardown lets the exception escape and leaves the state record in the map —
refuting "never throws ... the record is always discarded regardless of how
the instance's destroy method behaves". -/
theorem C4_counterexample :
    (teardown (fun _ => true) (fun _ => true)
      (some ⟨false, false, some 0, false⟩)).2.2 = true ∧
    (teardown (fun _ => true) (fun _ => true)
      (some ⟨false, false, some 0, false⟩)).1 ≠ none := by decide

/-- C4 amended: provided the instance's destroy method (when present)
returns normally, teardown never throws, silently skips a missing destroy
method, runs the side effects in order, and always discards the record. -/
theorem C4_teardown_total (hd dt : Inst → Bool) (r : Rec)
    (h : ∀ i, r.appModule = some i → hd i = true → dt i = false) :
    teardown hd dt (some r) =
      (none,
       [TdEv.abort] ++ (if r.cancelLazy then [TdEv.cancelLazy] else []) ++
         (match r.appModule with
          | some i => if hd i then [TdEv.destroy i] else []
          | none => []),
       false) := by
  cases ha : r.appModule with
  | none => simp [teardown, ha]
  | some i =>
    by_cases hhd : hd i = true
    · have hdt : dt i = false := h i ha hhd
      simp [teardown, ha, hhd, hdt]
    · simp [teardown, ha, hhd]

theorem C4_teardown_total_witness :
    teardown (fun _ => true) (fun _ => false) (some ⟨false, true, some 3, false⟩) =
      (none, [TdEv.abort, TdEv.cancelLazy, TdEv.destroy 3], false) :=
  C4_teardown_total (fun _ => true) (fun _ => false) ⟨false, true, some 3, false⟩
    (fun _ _ _ => rfl)

/-- C5 counterexample: disconnecting a Bound element whose destroy method
throws runs abort and the destroy call but does not discard the state
record, so the claimed final teardown step ("then the state record is
discarded") does not always happen. -/
theorem C5_counterexample :
    teardown (fun _ => true) (fun _ => true) (some ⟨false, false, some 0, false⟩) =
      (some ⟨true, false, some 0, false⟩, [TdEv.abort, TdEv.destroy 0], true) := by
  decide

/-- C5 amended: for a Bound element whose destroy method returns normally,
disconnect teardown triggers the cancellation handle, then cancels any
pending deferral, then calls the destroy method exactly once, then discards
the record. -/
theorem C5_teardown_order (hd dt : Inst → Bool) (r : Rec) (i : Inst)
    (h1 : r.appModule = some i) (h2 : hd i = true) (h3 : dt i = false) :
    teardown hd dt (some r) =
      (none, [TdEv.abort] ++ (if r.cancelLazy then [TdEv.cancelLazy] else []) ++
        [TdEv.destroy i], false) := by
  simp [teardown, h1, h2, h3]

theorem C5_teardown_order_witness :
    teardown (fun _ => true) (fun _ => false) (some ⟨false, true, some 5, false⟩) =
      (none, [TdEv.abort, TdEv.cancelLazy, TdEv.destroy 5], false) :=
  C5_teardown_order (fun _ => true) (fun _ => false) ⟨false, true, some 5, false⟩ 5
    rfl rfl rfl

/-- C8: a null/undefined resolver result marks the record failed with no
construction and no escaping exception; a resolver exception is caught,
logged, and also marks the record failed; and the default resolver logs a
warning exactly when it resolves to null.  (`resolveStep` is a total
function: the `try`/`catch` of `initModule` lets nothing escape to the
caller, so other elements' processing continues.) -/
theorem C8_resolution_failure_isolated (construct : Cls → Except Unit Inst)
    (r : Rec) (e : Unit) (registry : String → Option (Except Unit Cls))
    (strict : Bool) (window : String → Option Cls) (isNative : Cls → Bool)
    (name : String) :
    resolveStep construct (Except.ok none) r =
      ({ r with failed := true }, false, []) ∧
    resolveStep construct (Except.error e) r =
      ({ r with failed := true }, false, [LogEv.error]) ∧
    (defaultResolver registry strict window isNative name).2 =
      (if (defaultResolver registry strict window isNative name).1 = Except.ok none
       then [LogEv.warn] else []) := by
  refine ⟨rfl, rfl, ?_⟩
  unfold defaultResolver
  cases hreg : registry name with
  | some imported =>
    cases imported with
    | ok c => simp
    | error e2 => simp
  | none =>
    cases strict with
    | false =>
      cases hw : window name with
      | some cand =>
        cases hn : isNative cand with
        | false => simp [hn]
        | true => simp [hn]
      | none => simp
    | true => simp

theorem wrapBraces_head (t : CStr) : (wrapBraces t).head? = some '{' := by
  unfold wrapBraces
  by_cases h : t.head? = some '{'
  · rw [if_pos h]
    exact h
  · rw [if_neg h]
    rfl

/-- C9: `parseConfig` never throws — a non-string input yields `{}`, a
malformed configuration string (one the platform JSON parser rejects after
the rewrite) yields `{}`, and every return value is a plain key/value
object (after brace wrapping the parsed text always starts with a brace,
and `JSON.parse` yields an object for such input, hypothesis `hobj`). -/
theorem C9_parseConfig_total (rewrite : CStr → CStr)
    (jsonParse : CStr → Option Json) (s : CStr) (o : Option CStr)
    (hobj : ∀ t v, t.head? = some '{' → jsonParse t = some v → v.isObj = true)
    (hbad : jsonParse (wrapBraces (rewrite (strTrim s))) = none) :
    parseConfig rewrite jsonParse none = Json.obj [] ∧
    parseConfig rewrite jsonParse (some s) = Json.obj [] ∧
    (parseConfig rewrite jsonParse o).isObj = true := by
  refine ⟨rfl, ?_, ?_⟩
  · unfold parseConfig
    dsimp only
    by_cases ht : strTrim s = []
    · rw [if_pos ht]
    · rw [if_neg ht]
      rw [hbad]
  · cases o with
    | none => rfl
    | some s2 =>
      unfold parseConfig
      dsimp only
      by_cases ht : strTrim s2 = []
      · rw [if_pos ht]
        rfl
      · rw [if_neg ht]
        cases hp : jsonParse (wrapBraces (rewrite (strTrim s2))) with
        | none => rfl
        | some v => exact hobj _ v (wrapBraces_head _) hp

theorem C9_parseConfig_total_witness :
    parseConfig id (fun _ => none) none = Json.obj [] ∧
    parseConfig id (fun _ => none) (some ['a']) = Json.obj [] ∧
    (parseConfig id (fun _ => none) (some ['b'])).isObj = true :=
  C9_parseConfig_total id (fun _ => none) ['a'] (some ['b'])
    (fun _ _ _ hv => nomatch hv) rfl

theorem NSet.mem_insert_self (s : NSet) (n : Nat) : (s.insert n).mem n = true := by
  unfold NSet.insert NSet.mem
  by_cases h : s.contains n = true
  · rw [if_pos h]
    exact h
  · rw [if_neg h]
    simp

theorem NSet.mem_insert_ne (s : NSet) (n k : Nat) (h : k ≠ n) :
    (s.insert n).mem k = s.mem k := by
  unfold NSet.insert NSet.mem
  by_cases hc : s.contains n = true
  · rw [if_pos hc]
  · rw [if_neg hc]
    simp [h]

theorem NSet.mem_del_self (s : NSet) (n : Nat) : (s.del n).mem n = false := by
  simp [NSet.del, NSet.mem]

theorem NSet.mem_del_ne (s : NSet) (n k : Nat) (h : k ≠ n) :
    (s.del n).mem k = s.mem k := by
  simp [NSet.del, NSet.mem, h]

/-- The occurrences of one fixed node inside an occurrence/processed list:
its subsequence of directions. -/
def projOccs (n : Nat) : List (Nat × Bool) → List Bool
  | [] => []
  | (m, d) :: rest => if m = n then d :: projOccs n rest else projOccs n rest

theorem runOccs_cons_true (dom : Dom) (queries : List String) (m : EMap)
    (a r : NSet) (n : Nat) (rest : List (Nat × Bool)) :
    runOccs dom queries m a r ((n, true) :: rest) =
      (if a.mem n then runOccs dom queries m a r rest
       else
        ((runOccs dom queries (notifyNode dom queries m n true).1
            (a.insert n) (r.del n) rest).1,
         (notifyNode dom queries m n true).2 ++
           (runOccs dom queries (notifyNode dom queries m n true).1
             (a.insert n) (r.del n) rest).2.1,
         (n, true) :: (runOccs dom queries (notifyNode dom queries m n true).1
             (a.insert n) (r.del n) rest).2.2)) := by
  show (if a.mem n = true then _ else _) = _
  rfl

theorem runOccs_cons_false (dom : Dom) (queries : List String) (m : EMap)
    (a r : NSet) (n : Nat) (rest : List (Nat × Bool)) :
    runOccs dom queries m a r ((n, false) :: rest) =
      (if r.mem n then runOccs dom queries m a r rest
       else
        ((runOccs dom queries (notifyNode dom queries m n false).1
            (a.del n) (r.insert n) rest).1,
         (notifyNode dom queries m n false).2 ++
           (runOccs dom queries (notifyNode dom queries m n false).1
             (a.del n) (r.insert n) rest).2.1,
         (n, false) :: (runOccs dom queries (notifyNode dom queries m n false).1
             (a.del n) (r.insert n) rest).2.2)) := by
  show (if r.mem n = true then _ else _) = _
  rfl

theorem projOccs_cons_self (n : Nat) (d : Bool) (rest : List (Nat × Bool)) :
    projOccs n ((n, d) :: rest) = d :: projOccs n rest := by
  rw [projOccs, if_pos rfl]

theorem projOccs_cons_ne (k n : Nat) (d : Bool) (rest : List (Nat × Bool))
    (h : k ≠ n) : projOccs n ((k, d) :: rest) = projOccs n rest := by
  rw [projOccs, if_neg h]

theorem runOccs_proj (dom : Dom) (queries : List String) (n : Nat) :
    ∀ (occs : List (Nat × Bool)) (m : EMap) (added removed : NSet),
    projOccs n (runOccs dom queries m added removed occs).2.2 =
      outRun (added.mem n, removed.mem n) (projOccs n occs) := by
  intro occs
  induction occs with
  | nil => intro m a r; rfl
  | cons p rest ih =>
    obtain ⟨mm, d⟩ := p
    intro m a r
    by_cases hn : mm = n
    · subst hn
      cases d with
      | true =>
        rw [runOccs_cons_true, projOccs_cons_self, outRun]
        by_cases ha : a.mem mm = true
        · rw [if_pos ha, ih]
          simp [ha]
        · rw [if_neg ha, projOccs_cons_self, ih, NSet.mem_insert_self,
            NSet.mem_del_self]
          simp [ha]
      | false =>
        rw [runOccs_cons_false, projOccs_cons_self, outRun]
        by_cases hr : r.mem mm = true
        · rw [if_pos hr, ih]
          simp [hr]
        · rw [if_neg hr, projOccs_cons_self, ih, NSet.mem_insert_self,
            NSet.mem_del_self]
          simp [hr]
    · rw [projOccs_cons_ne mm n d rest hn]
      cases d with
      | true =>
        rw [runOccs_cons_true]
        by_cases ha : a.mem mm = true
        · rw [if_pos ha, ih]
        · rw [if_neg ha, projOccs_cons_ne mm n true _ hn, ih,
            NSet.mem_insert_ne a mm n (Ne.symm hn),
            NSet.mem_del_ne r mm n (Ne.symm hn)]
      | false =>
        rw [runOccs_cons_false]
        by_cases hr : r.mem mm = true
        · rw [if_pos hr, ih]
        · rw [if_neg hr, projOccs_cons_ne mm n false _ hn, ih,
            NSet.mem_del_ne a mm n (Ne.symm hn),
            NSet.mem_insert_ne r mm n (Ne.symm hn)]

theorem outRun_head_after_add (ds : List Bool) :
    (outRun (true, false) ds).head? ≠ some true := by
  induction ds with
  | nil => simp [outRun]
  | cons d rest ih =>
    cases d with
    | true => simpa [outRun] using ih
    | false => simp [outRun]

theorem outRun_head_after_remove (ds : List Bool) :
    (outRun (false, true) ds).head? ≠ some false := by
  induction ds with
  | nil => simp [outRun]
  | cons d rest ih =>
    cases d with
    | true => simp [outRun]
    | false => simpa [outRun] using ih

theorem outRun_chain (ds : List Bool) :
    ∀ s : Bool × Bool,
    s = (true, false) ∨ s = (false, true) ∨ s = (false, false) →
    List.Chain' (fun x y => x ≠ y) (outRun s ds) := by
  induction ds with
  | nil => intro s _; simp [outRun]
  | cons d rest ih =>
    intro s hs
    cases d with
    | true =>
      rcases hs with rfl | rfl | rfl
      · simpa [outRun] using ih (true, false) (Or.inl rfl)
      · rw [outRun]
        simp only [Bool.false_eq_true, if_false]
        refine List.chain'_cons'.mpr ⟨?_, ih (true, false) (Or.inl rfl)⟩
        intro y hy
        cases y with
        | true => exact absurd hy (by simpa using outRun_head_after_add rest)
        | false => simp
      · rw [outRun]
        simp only [Bool.false_eq_true, if_false]
        refine List.chain'_cons'.mpr ⟨?_, ih (true, false) (Or.inl rfl)⟩
        intro y hy
        cases y with
        | true => exact absurd hy (by simpa using outRun_head_after_add rest)
        | false => simp
    | false =>
      rcases hs with rfl | rfl | rfl
      · rw [outRun]
        simp only [Bool.false_eq_true, if_false]
        refine List.chain'_cons'.mpr ⟨?_, ih (false, true) (Or.inr (Or.inl rfl))⟩
        intro y hy
        cases y with
        | true => simp
        | false => exact absurd hy (by simpa using outRun_head_after_remove rest)
      · simpa [outRun] using ih (false, true) (Or.inr (Or.inl rfl))
      · rw [outRun]
        simp only [Bool.false_eq_true, if_false]
        refine List.chain'_cons'.mpr ⟨?_, ih (false, true) (Or.inr (Or.inl rfl))⟩
        intro y hy
        cases y with
        | true => simp
        | false => exact absurd hy (by simpa using outRun_head_after_remove rest)

/-- C2 counterexample: a batch that removes then re-adds node 0 (a node
that was merely moved) re-processes the removed-marked node as added and
emits the contradictory disconnect–connect notification pair — the fired
processing list is `[(0, removed), (0, added)]`, not a single-direction
outcome. -/
theorem C2_counterexample :
    (batchProcess domW ["[data-x]"] [(0, ["[data-x]"])] [([], [0]), ([0], [])]).2 =
      ([⟨0, false, "[data-x]"⟩, ⟨0, true, "[data-x]"⟩],
       [(0, false), (0, true)]) := by decide

/-- C2 amended: the per-batch working sets deduplicate same-direction
processing only — for each node the sequence of fired `processNode`
notifications strictly alternates in direction, so no duplicate
same-direction notifications occur within a batch; but a node both removed
and re-added in one batch is re-processed in the opposite direction,
yielding a disconnect followed by a connect (final state wins) rather than
no notification pair. -/
theorem C2_batch_dedup_alternates (dom : Dom) (queries : List String)
    (m : EMap) (records : List (List Nat × List Nat)) (n : Nat) :
    List.Chain' (fun x y => x ≠ y)
      (projOccs n (batchProcess dom queries m records).2.2) := by
  rw [batchProcess, runOccs_proj]
  exact outRun_chain _ _ (Or.inr (Or.inr rfl))

/-- C3 counterexample: element 0 connects (record id 0), its resolver
settles with null (record 0 becomes Failed), and `retryFailed` then forgets
and re-evaluates the element.  A new record (id 1) is created and stored
while the prior record 0 was never torn down: its cancellation handle was
never triggered (`aborted = false`), no deferral was cancelled and no
destroy ran — the new record simply overwrites the map entry. -/
theorem C3_counterexample :
    (let s1 := evaluateSys envT ["[data-x]"] [0] true ⟨[], [], [], 0⟩
     let s2 := (resolveSys envT 0 (Except.ok none) s1).1
     let s3 := (retryFailedSys envT ["[data-x]"] "[data-x]" 0 s2).1
     s3.comp.find 0 = some 1 ∧
       s3.heap.find 0 = some ⟨false, false, none, true⟩ ∧
       s3.heap.find 1 = some (freshRec false)) := by decide

/-- C3 amended: the component-state map holds at most one record per
element, and in the `retryFailed` path the new record replaces the prior
failed one by overwriting the map entry; the prior record is not torn down
first — it survives unchanged in particular with its cancellation handle
untriggered. -/
theorem C3_retry_replaces_record (env : Env) (q : String) (s : Sys)
    (el id k : Nat) (r : Rec)
    (hc : s.comp.find el = some id) (hh : s.heap.find id = some r)
    (hf : r.failed = true) (hel : env.dom.isElem el = true)
    (hq : env.dom.elMatches el q = true) (hid : id ≠ s.nextId)
    (hnodup : (s.ledger.map Prod.fst).Nodup) :
    (retryOne env [q] (s, k) el).1.comp.find el = some s.nextId ∧
    (retryOne env [q] (s, k) el).1.heap.find s.nextId =
      some (freshRec (env.lazyFlag el)) ∧
    (retryOne env [q] (s, k) el).1.heap.find id = some r ∧
    (retryOne env [q] (s, k) el).2 = k + 1 := by
  have hstep : retryOne env [q] (s, k) el =
      (evaluateSys env [q] [el] true (forgetSys el s), k + 1) := by
    unfold retryOne
    rw [hc]
    show (match s.heap.find id with
          | none => (s, k)
          | some r =>
            if r.failed = true then
              (evaluateSys env [q] [el] true (forgetSys el s), k + 1)
            else (s, k)) = _
    rw [hh]
    show (if r.failed = true then
          (evaluateSys env [q] [el] true (forgetSys el s), k + 1)
        else (s, k)) = _
    rw [if_pos hf]
  have hfind : (forget s.ledger el).find el = none :=
    EMap.find_erase_self s.ledger el hnodup
  have hnot : notifyNode env.dom [q] (forget s.ledger el) el true =
      ((forget s.ledger el).set el [q], [⟨el, true, q⟩]) := by
    simp [notifyNode, hel, hfind, connFold, connStep, hq]
  have heval : evaluateSys env [q] [el] true (forgetSys el s) =
      connectSys env el
        { forgetSys el s with ledger := (forget s.ledger el).set el [q] } := by
    unfold evaluateSys
    rw [evaluate_single, if_pos hel]
    show applySys env (notifyNode env.dom [q] (forgetSys el s).ledger el true).2
      { forgetSys el s with
        ledger := (notifyNode env.dom [q] (forgetSys el s).ledger el true).1 } = _
    rw [show (forgetSys el s).ledger = forget s.ledger el from rfl, hnot]
    rfl
  rw [hstep, heval]
  refine ⟨?_, ?_, ?_, rfl⟩
  · exact cmap_find_set_self s.comp el s.nextId
  · exact rheap_find_set_self s.heap s.nextId (freshRec (env.lazyFlag el))
  · rw [show (connectSys env el
        { forgetSys el s with
          ledger := (forget s.ledger el).set el [q] }).heap =
        s.heap.set s.nextId (freshRec (env.lazyFlag el)) from rfl]
    rw [rheap_find_set_ne s.heap s.nextId id (freshRec (env.lazyFlag el)) hid]
    exact hh

theorem C3_retry_replaces_record_witness :
    (let s : Sys := ⟨[(0, ["[data-x]"])], [(0, 0)],
        [(0, ⟨false, false, none, true⟩)], 1⟩
     (retryOne envT ["[data-x]"] (s, 0) 0).1.comp.find 0 = some 1 ∧
     (retryOne envT ["[data-x]"] (s, 0) 0).1.heap.find 1 =
       some (freshRec (envT.lazyFlag 0)) ∧
     (retryOne envT ["[data-x]"] (s, 0) 0).1.heap.find 0 =
       some ⟨false, false, none, true⟩ ∧
     (retryOne envT ["[data-x]"] (s, 0) 0).2 = 0 + 1) :=
  C3_retry_replaces_record envT "[data-x]"
    ⟨[(0, ["[data-x]"])], [(0, 0)], [(0, ⟨false, false, none, true⟩)], 1⟩
    0 0 0 ⟨false, false, none, true⟩ rfl rfl rfl rfl (by decide) (by decide)
    (by simp)
